import Mathlib

/-!
Verification development for a PDF title/outline extraction pipeline
(`extractor.py`: `_clean_text`, `_merge_text_blocks`, `_calculate_heading_score`,
`process_pdf_file`).

The Python code computes with IEEE floats over values supplied by the PDF
parser.  We embed those numbers as exact rationals, represented by the type
`Q` below: an integer numerator together with a positive natural denominator,
*without* normalisation, so that every arithmetic operation is plain integer
arithmetic and kernel-reducible (`Rat`'s gcd-normalising operations are not).
Python's float comparisons and `dict` equality compare numeric *values*, so
comparisons on `Q` are defined by cross-multiplication (value order), not by
structural equality.  Decimal literals of the source (`1.15`, `0.08`, ...)
are embedded as the exact decimal fractions they denote; the float roundoff
of the source (below 1 ulp) is not modelled.
-/

/-- Exact rational: numerator and positive denominator, unnormalised.
Models the real value carried by a Python float. -/
structure Q where
  num : ℤ
  den : ℕ+
deriving DecidableEq

instance (n : ℕ) : OfNat Q n := ⟨⟨(n : ℤ), 1⟩⟩

instance : Add Q := ⟨fun a b => ⟨a.num * (b.den : ℤ) + b.num * (a.den : ℤ), a.den * b.den⟩⟩

instance : Sub Q := ⟨fun a b => ⟨a.num * (b.den : ℤ) - b.num * (a.den : ℤ), a.den * b.den⟩⟩

instance : Mul Q := ⟨fun a b => ⟨a.num * b.num, a.den * b.den⟩⟩

/-- Value order on `Q` (cross multiplication; denominators are positive). -/
instance : LE Q := ⟨fun a b => a.num * (b.den : ℤ) ≤ b.num * (a.den : ℤ)⟩

instance : LT Q := ⟨fun a b => a.num * (b.den : ℤ) < b.num * (a.den : ℤ)⟩

instance (a b : Q) : Decidable (a ≤ b) :=
  inferInstanceAs (Decidable (a.num * (b.den : ℤ) ≤ b.num * (a.den : ℤ)))

instance (a b : Q) : Decidable (a < b) :=
  inferInstanceAs (Decidable (a.num * (b.den : ℤ) < b.num * (a.den : ℤ)))

/-- Value equality on `Q` (what Python float `==` compares). -/
def Q.eqv (a b : Q) : Prop := a.num * (b.den : ℤ) = b.num * (a.den : ℤ)

instance (a b : Q) : Decidable (Q.eqv a b) :=
  inferInstanceAs (Decidable (a.num * (b.den : ℤ) = b.num * (a.den : ℤ)))

/-- Absolute value, models Python `abs` on floats. -/
def Q.abs (a : Q) : Q := ⟨|a.num|, a.den⟩

/-- Division by a positive count (used for `statistics.mean`). -/
def Q.divPNat (a : Q) (n : ℕ+) : Q := ⟨a.num, a.den * n⟩

/-- Sum of a list of `Q` (left fold from 0, as Python `sum`/`statistics` do). -/
def Q.sumList (l : List Q) : Q := l.foldl (· + ·) 0

/-- `statistics.mean`: sum divided by length; `0` on the empty list mirrors the
guard `if font_sizes else 0` at the call site in `_merge_text_blocks`. -/
def meanQ (l : List Q) : Q :=
  if h : l.length = 0 then 0
  else Q.divPNat (Q.sumList l) ⟨l.length, Nat.pos_of_ne_zero h⟩

/-- The rational value denoted by a `Q`. -/
def Q.val (a : Q) : ℚ := (a.num : ℚ) / ((a.den : ℕ) : ℚ)

/-- Python `round` (banker's rounding, ties to even) on the value
`q.num / q.den`; `/` on `ℤ` is Euclidean division, which is floor division
for the positive denominator. -/
def pyRound (q : Q) : ℤ :=
  let f : ℤ := q.num / (q.den : ℤ)
  let r : ℤ := q.num - f * (q.den : ℤ)
  if 2 * r < (q.den : ℤ) then f
  else if ((q.den : ℕ) : ℤ) < 2 * r then f + 1
  else if f % 2 = 0 then f else f + 1

/-- Reference version of Python `round` on `ℚ`, used for order reasoning. -/
def pyRoundRat (x : ℚ) : ℤ :=
  if Int.fract x < 1/2 then ⌊x⌋
  else if 1/2 < Int.fract x then ⌊x⌋ + 1
  else if ⌊x⌋ % 2 = 0 then ⌊x⌋ else ⌊x⌋ + 1

/-! ### Character and string helpers (ASCII fragment of Python's predicates) -/

/-- Python `\s` / `str.strip` whitespace (ASCII part). -/
def isPySpace (c : Char) : Bool :=
  c = ' ' || c = '\t' || c = '\n' || c = '\x0b' || c = '\x0c' || c = '\r'

/-- Collapse every run of whitespace to a single space
(`re.sub(r'\s+', ' ', text)`). -/
def collapseWs : List Char → List Char
  | [] => []
  | [c] => [if isPySpace c then ' ' else c]
  | c₁ :: c₂ :: cs =>
    if isPySpace c₁ && isPySpace c₂ then collapseWs (c₂ :: cs)
    else (if isPySpace c₁ then ' ' else c₁) :: collapseWs (c₂ :: cs)

/-- Python `str.strip()`. -/
def pyStrip (l : List Char) : List Char :=
  ((l.dropWhile isPySpace).reverse.dropWhile isPySpace).reverse

/-- `_clean_text`: collapse whitespace runs, then strip the ends. -/
def cleanText (s : String) : String := ⟨pyStrip (collapseWs s.data)⟩

/-- Lower-casing a string character-wise (Python `str.lower`, ASCII). -/
def pyLower (s : String) : String := ⟨s.data.map Char.toLower⟩

/-- `any(c.isalpha() for c in s)` (ASCII letters). -/
def hasAlpha (s : String) : Bool := s.data.any (fun c => c.isAlpha)

/-- Python `str.isupper()`: at least one cased character and no lowercase
character (ASCII: cased = letter). -/
def pyIsUpper (s : String) : Bool :=
  s.data.any (fun c => c.isUpper || c.isLower) && s.data.all (fun c => !c.isLower)

/-- Does `needle` occur at the head of `hay`? -/
def leadsList : List Char → List Char → Bool
  | [], _ => true
  | _ :: _, [] => false
  | a :: as, b :: bs => a = b && leadsList as bs

/-- Substring test, models Python's `in` on strings. -/
def hasSubstr (needle : List Char) : List Char → Bool
  | [] => needle.isEmpty
  | c :: cs => leadsList needle (c :: cs) || hasSubstr needle cs

/-- `re.match(r'^\d+\.\s', text)`: one or more digits, a period, then a
whitespace character, at the start of the text. -/
def isListItemStart (s : String) : Bool :=
  let cs := s.data
  let ds := cs.takeWhile Char.isDigit
  match ds, cs.drop ds.length with
  | _ :: _, '.' :: c :: _ => isPySpace c
  | _, _ => false

/-- Numeric rank of a heading level string: `hNum "H3" = 3`. -/
def hNum (s : String) : ℕ :=
  (s.data.drop 1).foldl (fun n c => 10 * n + (c.toNat - '0'.toNat)) 0

/-! ### Generic list helpers mirroring Python built-ins -/

/-- One step of stable insertion: place `a` after every element `b` of the
(already sorted) list with `le b a`. -/
def stableInsert (le : α → α → Bool) (a : α) : List α → List α
  | [] => [a]
  | b :: bs => if le b a then b :: stableInsert le a bs else a :: b :: bs

/-- Stable sort by insertion, processing the input left to right.  For a total
preorder `le` this produces exactly the result of Python's stable `list.sort`
/ `sorted` (equal-key elements keep their original relative order). -/
def stableSort (le : α → α → Bool) (l : List α) : List α :=
  l.foldl (fun acc a => stableInsert le a acc) []

/-- Python `max(l, key=f)` on a nonempty `a :: l`: the *first* element whose
key attains the maximum (later elements replace only on strictly greater). -/
def firstMaxAux [LinearOrder β] (f : α → β) (a : α) : List α → α
  | [] => a
  | b :: bs => if f a < f b then firstMaxAux f b bs else firstMaxAux f a bs

/-- Python `max(l, key=f)` as an `Option` (`none` on the empty list). -/
def firstMaxBy [LinearOrder β] (f : α → β) : List α → Option α
  | [] => none
  | a :: as => some (firstMaxAux f a as)

/-- Index of the first element satisfying `p`. -/
def findIdxQ (p : α → Bool) : List α → Option ℕ
  | [] => none
  | a :: as => if p a then some 0 else (findIdxQ p as).map (· + 1)

/-- Distinct elements in order of first occurrence. -/
def firstDedup [DecidableEq α] : List α → List α
  | [] => []
  | a :: as => a :: (firstDedup as).filter (fun b => decide (b ≠ a))

/-- `Counter(l).most_common(1)[0][0]`: the element with the largest count,
ties resolved in favour of the earliest-inserted key. -/
def mostCommon [DecidableEq α] (l : List α) : Option α :=
  firstMaxBy (fun a => l.count a) l

/-- Minimum of a list of `Q` by value (Python `min` over floats). -/
def qListMin : List Q → Q
  | [] => 0
  | a :: as => as.foldl (fun m b => if b < m then b else m) a

/-- Maximum of a list of `Q` by value (Python `max` over floats). -/
def qListMax : List Q → Q
  | [] => 0
  | a :: as => as.foldl (fun m b => if m < b then b else m) a

/-! ### Data model -/

/-- A bounding box `(x0, y0, x1, y1)` in page coordinates (`bbox[0..3]`). -/
structure Rect where
  x0 : Q
  y0 : Q
  x1 : Q
  y1 : Q
deriving DecidableEq

/-- Value equality of boxes (Python tuple `==` over floats). -/
def Rect.eqv (a b : Rect) : Prop :=
  Q.eqv a.x0 b.x0 ∧ Q.eqv a.y0 b.y0 ∧ Q.eqv a.x1 b.x1 ∧ Q.eqv a.y1 b.y1

instance (a b : Rect) : Decidable (Rect.eqv a b) := by unfold Rect.eqv; infer_instance

/-- A text span from the upstream parser: `{"text", "size", "font", "bbox"}`. -/
structure Span where
  text : String
  size : Q
  font : String
  bbox : Rect
deriving DecidableEq

/-- A sub-line of a page block: `{"dir", "spans"}`. -/
structure SubLine where
  dir : Q × Q
  spans : List Span
deriving DecidableEq

/-- A page block; `lines = none` models a dict without a `"lines"` key. -/
structure Block where
  bbox : Rect
  lines : Option (List SubLine)
deriving DecidableEq

/-- A reconstructed line as produced by `_merge_text_blocks`. -/
structure RLine where
  text : String
  font_size : Q
  font_name : String
  bbox : Rect
deriving DecidableEq

/-- An element of `all_lines` in `process_pdf_file`: a reconstructed line
with its `"page"` and `"y0"` keys attached. -/
structure DocLine where
  text : String
  font_size : Q
  font_name : String
  bbox : Rect
  page : ℕ
  y0 : Q
deriving DecidableEq

/-- Python dict equality of two line dicts (floats compared by value). -/
def DocLine.eqv (a b : DocLine) : Prop :=
  a.text = b.text ∧ Q.eqv a.font_size b.font_size ∧ a.font_name = b.font_name ∧
    Rect.eqv a.bbox b.bbox ∧ a.page = b.page ∧ Q.eqv a.y0 b.y0

instance (a b : DocLine) : Decidable (DocLine.eqv a b) := by
  unfold DocLine.eqv; infer_instance

/-- A line dict after `line['score'] = ...` has been attached. -/
structure SLine where
  line : DocLine
  score : ℤ
deriving DecidableEq

/-- Python dict equality of two scored line dicts. -/
def SLine.eqv (a b : SLine) : Prop := DocLine.eqv a.line b.line ∧ a.score = b.score

instance (a b : SLine) : Decidable (SLine.eqv a b) := by unfold SLine.eqv; infer_instance

/-- An outline entry before `y0` is stripped: `{"level","text","page","y0"}`. -/
structure EntryY where
  level : String
  text : String
  page : ℕ
  y0 : Q
deriving DecidableEq

/-- A final outline entry: `{"level", "text", "page"}`. -/
structure Entry where
  level : String
  text : String
  page : ℕ
deriving DecidableEq

/-- Removing the transient `y0` key from an outline entry. -/
def stripY (e : EntryY) : Entry := ⟨e.level, e.text, e.page⟩

/-- The result record `{"title": ..., "outline": ...}`. -/
structure DocResult where
  title : String
  outline : List Entry
deriving DecidableEq

/-! ### `_merge_text_blocks` -/

/-- Sort key of `blocks.sort(key=lambda b: (b['bbox'][1], b['bbox'][0]))`:
lexicographic on `(y0, x0)` by float value. -/
def blockKeyLe (a b : Block) : Bool :=
  decide (a.bbox.y0 < b.bbox.y0) ||
    (decide (Q.eqv a.bbox.y0 b.bbox.y0) && decide (a.bbox.x0 ≤ b.bbox.x0))

/-- Sort key of `current_line_spans.sort(key=lambda s: s['bbox'][0])`. -/
def spanXLe (a b : Span) : Bool := decide (a.bbox.x0 ≤ b.bbox.x0)

/-- The sub-lines actually traversed: blocks sorted by `(y0, x0)`, blocks
without a `"lines"` key skipped, sub-lines with `dir != (1, 0)` skipped. -/
def validSubLines (blocks : List Block) : List SubLine :=
  (stableSort blockKeyLe blocks).flatMap
    (fun b => (b.lines.getD []).filter
      (fun sl => decide (Q.eqv sl.dir.1 1) && decide (Q.eqv sl.dir.2 0)))

/-- `y_tolerance = 2.0`. -/
def yTolerance : Q := 2

/-- `x_gap_tolerance = 20.0`. -/
def xGapTolerance : Q := 20

/-- One iteration of the grouping walk.  State: (finished groups, current
group).  `none` models the `IndexError` Python would raise on
`line['spans'][0]` when the current group is nonempty and the new sub-line
has no spans. -/
def mergeStep (acc : List (List Span) × List Span) (sl : SubLine) :
    Option (List (List Span) × List Span) :=
  match acc.2.getLast? with
  | none => some (acc.1, acc.2 ++ sl.spans)
  | some lastSpan =>
    match sl.spans.head? with
    | none => none
    | some curSpan =>
      if Q.abs (curSpan.bbox.y0 - lastSpan.bbox.y0) ≤ yTolerance then
        if curSpan.bbox.x0 - lastSpan.bbox.x1 < xGapTolerance then
          some (acc.1, acc.2 ++ sl.spans)
        else
          some (acc.1 ++ [stableSort spanXLe acc.2], sl.spans)
      else
        some (acc.1 ++ [stableSort spanXLe acc.2], sl.spans)

/-- The grouping walk over all valid sub-lines followed by the final flush of
the open group. -/
def mergeGroups (blocks : List Block) : Option (List (List Span)) :=
  ((validSubLines blocks).foldlM mergeStep ([], [])).map
    (fun acc => if acc.2.isEmpty then acc.1 else acc.1 ++ [stableSort spanXLe acc.2])

/-- Turn one finished span group into a reconstructed line: concatenate the
texts, clean, and drop the group if the cleaned text is empty; font size is
the mean span size, font name the most frequent span font, bbox the
coordinate-wise union. -/
def finalizeGroup (spans : List Span) : Option RLine :=
  if spans.isEmpty then none
  else
    let cleaned := cleanText (String.join (spans.map (fun s => s.text)))
    if cleaned = "" then none
    else some
      { text := cleaned
        font_size := meanQ (spans.map (fun s => s.size))
        font_name := (mostCommon (spans.map (fun s => s.font))).getD ""
        bbox :=
          { x0 := qListMin (spans.map (fun s => s.bbox.x0))
            y0 := qListMin (spans.map (fun s => s.bbox.y0))
            x1 := qListMax (spans.map (fun s => s.bbox.x1))
            y1 := qListMax (spans.map (fun s => s.bbox.y1)) } }

/-- `_merge_text_blocks`. -/
def mergeTextBlocks (blocks : List Block) : Option (List RLine) :=
  if blocks.isEmpty then some []
  else (mergeGroups blocks).map (fun gs => gs.filterMap finalizeGroup)

/-! ### `_calculate_heading_score` -/

/-- `_calculate_heading_score(line, body_text_size, body_text_font)`.
`body_text_size` is an `ℤ` because the caller derives it from a rounded
size.  `body_text_font` is accepted but never used, exactly as in the
source.  `1.15` and `1.4` are the decimal fractions those literals denote. -/
def calculateHeadingScore (line : DocLine) (body_text_size : ℤ)
    (body_text_font : String) : ℤ :=
  let font_name := pyLower line.font_name
  -- Points for being bold
  let s₁ : ℤ :=
    if hasSubstr "bold".data font_name.data || hasSubstr "black".data font_name.data ||
        hasSubstr "heavy".data font_name.data then 2 else 0
  -- Points for font size relative to body text
  let s₂ := if (⟨body_text_size, 1⟩ : Q) * ⟨115, 100⟩ < line.font_size then s₁ + 2 else s₁
  let s₃ := if (⟨body_text_size, 1⟩ : Q) * ⟨14, 10⟩ < line.font_size then s₂ + 1 else s₂
  -- Points for being all-caps (and having at least one letter)
  let s₄ := if pyIsUpper line.text && hasAlpha line.text then s₃ + 1 else s₃
  -- Penalize lines that are likely body text (ending in '.' or ':')
  let s₅ :=
    if line.text.data.getLast? = some '.' ∨ (pyStrip line.text.data).getLast? = some ':'
    then s₄ - 2 else s₄
  -- Penalize lines that look like list items: force the score to 0
  if isListItemStart line.text then 0 else s₅

/-! ### `process_pdf_file`, step by step -/

/-- Step 2: `font_styles`, the `(round(font_size), font_name)` pairs of all
lines containing an alphabetic character. -/
def fontStylesOf (all_lines : List DocLine) : List (ℤ × String) :=
  (all_lines.filter (fun l => hasAlpha l.text)).map
    (fun l => (pyRound l.font_size, l.font_name))

/-- Step 2: the most common body text style (only consulted when
`fontStylesOf` is nonempty). -/
def bodyStyleOf (all_lines : List DocLine) : ℤ × String :=
  (mostCommon (fontStylesOf all_lines)).getD (0, "")

/-- Step 3: every line with its `score` attached. -/
def scoredOf (all_lines : List DocLine) : List SLine :=
  all_lines.map (fun l =>
    ⟨l, calculateHeadingScore l (bodyStyleOf all_lines).1 (bodyStyleOf all_lines).2⟩)

/-- Step 3: `potential_headings`: score at least 2 and text shorter than 200
characters. -/
def potentialHeadingsOf (all_lines : List DocLine) : List SLine :=
  (scoredOf all_lines).filter
    (fun h => decide (2 ≤ h.score) && decide (h.line.text.length < 200))

/-- Step 4: the potential headings on page 0. -/
def firstPageHeadingsOf (all_lines : List DocLine) : List SLine :=
  (potentialHeadingsOf all_lines).filter (fun h => decide (h.line.page = 0))

/-- Step 4: `title_line`: `max(first_page_headings, key=score)` when that
list is nonempty, otherwise `None`. -/
def titleLineOf (all_lines : List DocLine) : Option SLine :=
  firstMaxBy (fun h => h.score) (firstPageHeadingsOf all_lines)

/-- The page-0 lines of the document. -/
def page0Lines (all_lines : List DocLine) : List DocLine :=
  all_lines.filter (fun l => decide (l.page = 0))

/-- `sorted([l for l in all_lines if l['page'] == 0], key=font_size,
reverse=True)[0]['text']`, or `""` when page 0 has no lines (used by the
no-candidates fallback and by the no-page-0-candidate title fallback). -/
def largestFontTitleOf (all_lines : List DocLine) : String :=
  match (stableSort (fun a b => decide (b.font_size ≤ a.font_size))
      (page0Lines all_lines)).head? with
  | some l => l.text
  | none => ""

/-- Step 4: the chosen title text. -/
def titleTextOf (all_lines : List DocLine) : String :=
  match titleLineOf all_lines with
  | some t => t.line.text
  | none => largestFontTitleOf all_lines

/-- Step 4: `headings`: all potential headings except those equal (as Python
dicts, i.e. field-wise by value) to the chosen title line; when no title
line was chosen all candidates remain. -/
def headingsOf (all_lines : List DocLine) : List SLine :=
  match titleLineOf all_lines with
  | some t => (potentialHeadingsOf all_lines).filter (fun h => !(decide (SLine.eqv h t)))
  | none => potentialHeadingsOf all_lines

/-- Step 5: `heading_font_sizes`: the distinct rounded heading sizes, sorted
descending. -/
def headingFontSizesOf (all_lines : List DocLine) : List ℤ :=
  stableSort (fun a b => decide (b ≤ a))
    (firstDedup ((headingsOf all_lines).map (fun h => pyRound h.line.font_size)))

/-- The level string `f"H{i + 1}"` for the (0-based) rank `i`; only ranks
below 6 are ever queried. -/
def levelName : ℕ → String
  | 0 => "H1"
  | 1 => "H2"
  | 2 => "H3"
  | 3 => "H4"
  | 4 => "H5"
  | 5 => "H6"
  | _ => "H0"

/-- Step 5: `size_to_level_map` as a lookup: sizes ranked beyond the sixth
distinct value receive no level. -/
def levelOfSize (sizes : List ℤ) (s : ℤ) : Option String :=
  match findIdxQ (fun t => decide (t = s)) sizes with
  | some i => if i < 6 then some (levelName i) else none
  | none => none

/-- Step 5: the outline before sorting: each heading whose rounded size has a
level contributes `{level, text, page, y0}`; the rest are dropped. -/
def outlineUnsortedOf (all_lines : List DocLine) : List EntryY :=
  (headingsOf all_lines).filterMap (fun h =>
    (levelOfSize (headingFontSizesOf all_lines) (pyRound h.line.font_size)).map
      (fun lv => ⟨lv, h.line.text, h.line.page, h.line.y0⟩))

/-- Step 6 sort key: the Python tuple `(x["page"], x["y0"])` order. -/
def entryKeyLe (a b : EntryY) : Bool :=
  decide (a.page < b.page) || (decide (a.page = b.page) && decide (a.y0 ≤ b.y0))

/-- Step 6: the outline sorted ascending by `(page, y0)`. -/
def outlineSortedOf (all_lines : List DocLine) : List EntryY :=
  stableSort entryKeyLe (outlineUnsortedOf all_lines)

/-- `process_pdf_file` from `all_lines` (the margin-filtered reconstructed
lines of the whole document) to the returned record: body-style fallbacks,
candidate selection, title extraction, level assignment, ordering, the
single-heading demotion fallback, and the `y0` strip. -/
def processLines (all_lines : List DocLine) : DocResult :=
  if all_lines.isEmpty then ⟨"", []⟩
  else if (fontStylesOf all_lines).isEmpty then
    ⟨((all_lines.head?).map (fun l => l.text)).getD "", []⟩
  else if (potentialHeadingsOf all_lines).isEmpty then
    ⟨largestFontTitleOf all_lines, []⟩
  else
    let title_text := titleTextOf all_lines
    let sortedOutline := outlineSortedOf all_lines
    if title_text ≠ "" ∧ sortedOutline = [] then
      ⟨"", [⟨"H1", title_text,
        (match titleLineOf all_lines with | some t => t.line.page | none => 0)⟩]⟩
    else ⟨title_text, sortedOutline.map stripY⟩

/-! ### The per-page front end -/

/-- One parsed page: its pixel height and its raw blocks. -/
structure PdfPage where
  height : Q
  blocks : List Block

/-- The header/footer filter: `page_height * 0.08 < y0 < page_height * 0.92`. -/
def marginBand (height : Q) (r : RLine) : Bool :=
  decide (height * ⟨8, 100⟩ < r.bbox.y0) && decide (r.bbox.y0 < height * ⟨92, 100⟩)

/-- Step 1 for one page: merge the blocks, keep the lines inside the margin
band, attach the page number and `y0`. -/
def pageDocLines (pnum : ℕ) (p : PdfPage) : Option (List DocLine) :=
  (mergeTextBlocks p.blocks).map (fun rls =>
    (rls.filter (marginBand p.height)).map
      (fun r => ⟨r.text, r.font_size, r.font_name, r.bbox, pnum, r.bbox.y0⟩))

/-- Step 1 for the document: `all_lines` across all pages in page order. -/
def allLinesOfPages (pages : List PdfPage) : Option (List DocLine) :=
  (pages.enum.mapM (fun pr => pageDocLines pr.1 pr.2)).map List.flatten

/-- The whole pipeline from parsed pages to the returned record. -/
def processPdfPages (pages : List PdfPage) : Option DocResult :=
  (allLinesOfPages pages).map processLines

/-! ### The spec-claim variant of title exclusion

The source excludes from `headings` every candidate equal to the chosen
title line as a Python dict (`h != title_line` compares dicts field-wise by
value).  The claim under check instead says exactly the single chosen
candidate is excluded. -/

/-- Modelled from the spec: exactly the one chosen candidate is excluded
from level assignment (remove a single value-equal occurrence). -/
def removeOneEqv (l : List SLine) (t : SLine) : List SLine :=
  match l with
  | [] => []
  | a :: as => if SLine.eqv a t then as else a :: removeOneEqv as t

/-! ### Concrete documents used as test inputs and witnesses -/

/-- The simple-report scenario: one page, three 11pt `Helvetica` body lines
and one 18pt bold all-caps line. -/
def srLines : List DocLine :=
  [ ⟨"EXECUTIVE SUMMARY", 18, "Helvetica-Bold", ⟨72, 100, 300, 120⟩, 0, 100⟩
  , ⟨"This is the body of the report", 11, "Helvetica", ⟨72, 200, 500, 212⟩, 0, 200⟩
  , ⟨"It has several lines of plain text", 11, "Helvetica", ⟨72, 220, 500, 232⟩, 0, 220⟩
  , ⟨"And a third body line for weight", 11, "Helvetica", ⟨72, 240, 500, 252⟩, 0, 240⟩ ]

/-- The multi-level scenario, page by page: page 0 has "Annual Report 2024"
at 24pt non-bold and "Chapter 1" at 18pt bold, page 1 has "Section 1.1" at
14pt bold; the body is a smaller common style (11pt `Helvetica`). -/
def mlPages : List PdfPage :=
  [ ⟨800, [⟨⟨72, 100, 500, 400⟩, some
      [ ⟨(1, 0), [⟨"Annual Report 2024", 24, "Helvetica", ⟨72, 100, 400, 130⟩⟩]⟩
      , ⟨(1, 0), [⟨"Chapter 1", 18, "Helvetica-Bold", ⟨72, 200, 200, 220⟩⟩]⟩
      , ⟨(1, 0), [⟨"This is some body text for the report", 11, "Helvetica", ⟨72, 300, 500, 312⟩⟩]⟩
      , ⟨(1, 0), [⟨"It continues with more sentences here", 11, "Helvetica", ⟨72, 320, 500, 332⟩⟩]⟩
      , ⟨(1, 0), [⟨"And a third line of body text", 11, "Helvetica", ⟨72, 340, 500, 352⟩⟩]⟩ ]⟩]⟩
  , ⟨800, [⟨⟨72, 100, 500, 250⟩, some
      [ ⟨(1, 0), [⟨"Section 1.1", 14, "Helvetica-Bold", ⟨72, 100, 200, 118⟩⟩]⟩
      , ⟨(1, 0), [⟨"More body text on the second page", 11, "Helvetica", ⟨72, 200, 500, 212⟩⟩]⟩ ]⟩]⟩ ]

/-- The `all_lines` list the multi-level scenario produces. -/
def mlLines : List DocLine :=
  [ ⟨"Annual Report 2024", 24, "Helvetica", ⟨72, 100, 400, 130⟩, 0, 100⟩
  , ⟨"Chapter 1", 18, "Helvetica-Bold", ⟨72, 200, 200, 220⟩, 0, 200⟩
  , ⟨"This is some body text for the report", 11, "Helvetica", ⟨72, 300, 500, 312⟩, 0, 300⟩
  , ⟨"It continues with more sentences here", 11, "Helvetica", ⟨72, 320, 500, 332⟩, 0, 320⟩
  , ⟨"And a third line of body text", 11, "Helvetica", ⟨72, 340, 500, 352⟩, 0, 340⟩
  , ⟨"Section 1.1", 14, "Helvetica-Bold", ⟨72, 100, 200, 118⟩, 1, 100⟩
  , ⟨"More body text on the second page", 11, "Helvetica", ⟨72, 200, 500, 212⟩, 1, 200⟩ ]

/-- The scored "Annual Report 2024" line of the multi-level scenario
(score 3: oversized twice, not bold, not all-caps). -/
def mlAnnual : SLine := ⟨⟨"Annual Report 2024", 24, "Helvetica", ⟨72, 100, 400, 130⟩, 0, 100⟩, 3⟩

/-- The scored "Section 1.1" line of the multi-level scenario (score 4). -/
def mlSection : SLine := ⟨⟨"Section 1.1", 14, "Helvetica-Bold", ⟨72, 100, 200, 118⟩, 1, 100⟩, 4⟩

/-- The scored "Chapter 1" line of the multi-level scenario (score 5: bold
and twice oversized), the page-0 candidate with the highest score. -/
def mlChapter : SLine := ⟨⟨"Chapter 1", 18, "Helvetica-Bold", ⟨72, 200, 200, 220⟩, 0, 200⟩, 5⟩

/-- A document whose page 0 carries two *structurally identical* candidate
line dicts.  The first block produces the line `"HEADING X"` directly; the
gap to the empty-text span (whose malformed box ends left of where it
starts) closes the first group, and the third sub-line continues the second
group, which then cleans up to an identical dict (`"HEADING X"`, value-equal
size 40/2, same font, same union bbox). -/
def dupPages : List PdfPage :=
  [ ⟨800, [⟨⟨0, 100, 200, 400⟩, some
      [ ⟨(1, 0), [⟨"HEADING X", 20, "Arial-Bold", ⟨0, 100, 10, 110⟩⟩]⟩
      , ⟨(1, 0), [⟨"", 20, "Arial-Bold", ⟨30, 100, 5, 110⟩⟩]⟩
      , ⟨(1, 0), [⟨"HEADING X", 20, "Arial-Bold", ⟨0, 100, 10, 110⟩⟩]⟩
      , ⟨(1, 0), [⟨"body text alpha", 10, "Helvetica", ⟨0, 300, 100, 310⟩⟩]⟩
      , ⟨(1, 0), [⟨"body text bravo", 10, "Helvetica", ⟨0, 330, 100, 340⟩⟩]⟩
      , ⟨(1, 0), [⟨"body text charlie", 10, "Helvetica", ⟨0, 360, 100, 370⟩⟩]⟩ ]⟩]⟩ ]

/-- One page whose only line inside the margin band has no alphabetic
character. -/
def digitPages : List PdfPage :=
  [⟨800, [⟨⟨0, 100, 200, 200⟩, some
    [⟨(1, 0), [⟨"123 456", 12, "Helvetica", ⟨0, 100, 50, 110⟩⟩]⟩]⟩]⟩]

/-- The single surviving line of `digitPages`. -/
def digitLine : DocLine := ⟨"123 456", 12, "Helvetica", ⟨0, 100, 50, 110⟩, 0, 100⟩

/-- One page whose only line sits in the top 8% so nothing survives the
margin filter. -/
def headerOnlyPages : List PdfPage :=
  [⟨800, [⟨⟨0, 10, 200, 40⟩, some
    [⟨(1, 0), [⟨"Running Header", 12, "Helvetica", ⟨0, 16, 50, 26⟩⟩]⟩]⟩]⟩]

/-- The fragmented-line scenario: two spans "Intro" (right edge 100) and
"duction" (left edge 105) whose top coordinates `t₁`, `t₂` are parameters. -/
def fragBlocks (t₁ t₂ : Q) : List Block :=
  [ ⟨⟨50, 100, 160, 120⟩, some
      [ ⟨(1, 0), [⟨"Intro", 12, "Times-Roman", ⟨50, t₁, 100, 110⟩⟩]⟩
      , ⟨(1, 0), [⟨"duction", 12, "Times-Roman", ⟨105, t₂, 160, 110⟩⟩]⟩ ]⟩ ]

/-- A document with no page-0 candidate but one page-1 candidate:
the title must come from the largest-font fallback and the outline stays
nonempty. -/
def p2Lines : List DocLine :=
  [ ⟨"plain page zero body text", 11, "Helvetica", ⟨72, 200, 500, 212⟩, 0, 200⟩
  , ⟨"more page zero body text", 11, "Helvetica", ⟨72, 220, 500, 232⟩, 0, 220⟩
  , ⟨"Big Bold Heading", 18, "Helvetica-Bold", ⟨72, 100, 300, 120⟩, 1, 100⟩ ]

/-- A document whose non-title headings span seven distinct rounded sizes
(31 down to 24, title excluded), so the smallest heading size exceeds the
six-level cap. -/
def sevenLines : List DocLine :=
  [ ⟨"Size Thirty One", 31, "Helvetica-Bold", ⟨72, 100, 300, 131⟩, 0, 100⟩
  , ⟨"Size Thirty", 30, "Helvetica-Bold", ⟨72, 140, 300, 170⟩, 0, 140⟩
  , ⟨"Size Twenty Nine", 29, "Helvetica-Bold", ⟨72, 180, 300, 209⟩, 0, 180⟩
  , ⟨"Size Twenty Eight", 28, "Helvetica-Bold", ⟨72, 220, 300, 248⟩, 0, 220⟩
  , ⟨"Size Twenty Seven", 27, "Helvetica-Bold", ⟨72, 260, 300, 287⟩, 0, 260⟩
  , ⟨"Size Twenty Six", 26, "Helvetica-Bold", ⟨72, 300, 300, 326⟩, 0, 300⟩
  , ⟨"Size Twenty Five", 25, "Helvetica-Bold", ⟨72, 340, 300, 365⟩, 0, 340⟩
  , ⟨"Size Twenty Four", 24, "Helvetica-Bold", ⟨72, 380, 300, 404⟩, 0, 380⟩
  , ⟨"plain body text number one", 10, "Helvetica", ⟨72, 420, 500, 430⟩, 0, 420⟩
  , ⟨"plain body text number two", 10, "Helvetica", ⟨72, 440, 500, 450⟩, 0, 440⟩
  , ⟨"plain body text number three", 10, "Helvetica", ⟨72, 460, 500, 470⟩, 0, 460⟩ ]

/-- The scored 24pt heading of `sevenLines` (score 5: bold and twice
oversized against the 10pt body). -/
def seven24 : SLine := ⟨⟨"Size Twenty Four", 24, "Helvetica-Bold", ⟨72, 380, 300, 404⟩, 0, 380⟩, 5⟩

/-- A bold oversized numbered list item ("1. Introduction"). -/
def liLine : DocLine := ⟨"1. Introduction", 20, "Helvetica-Bold", ⟨72, 100, 200, 120⟩, 0, 100⟩

/-! ## Lemmas -/

/-! ### The value embedding of `Q` -/

theorem Q.le_iff_val {a b : Q} : a ≤ b ↔ a.val ≤ b.val := by
  have ha : (0 : ℚ) < ((a.den : ℕ) : ℚ) := by exact_mod_cast a.den.pos
  have hb : (0 : ℚ) < ((b.den : ℕ) : ℚ) := by exact_mod_cast b.den.pos
  constructor
  · intro h
    have h' : a.num * ((b.den : ℕ) : ℤ) ≤ b.num * ((a.den : ℕ) : ℤ) := h
    unfold Q.val
    rw [div_le_div_iff₀ ha hb]
    exact_mod_cast h'
  · intro h
    unfold Q.val at h
    rw [div_le_div_iff₀ ha hb] at h
    show a.num * ((b.den : ℕ) : ℤ) ≤ b.num * ((a.den : ℕ) : ℤ)
    exact_mod_cast h

theorem Q.lt_iff_val {a b : Q} : a < b ↔ a.val < b.val := by
  have ha : (0 : ℚ) < ((a.den : ℕ) : ℚ) := by exact_mod_cast a.den.pos
  have hb : (0 : ℚ) < ((b.den : ℕ) : ℚ) := by exact_mod_cast b.den.pos
  constructor
  · intro h
    have h' : a.num * ((b.den : ℕ) : ℤ) < b.num * ((a.den : ℕ) : ℤ) := h
    unfold Q.val
    rw [div_lt_div_iff₀ ha hb]
    exact_mod_cast h'
  · intro h
    unfold Q.val at h
    rw [div_lt_div_iff₀ ha hb] at h
    show a.num * ((b.den : ℕ) : ℤ) < b.num * ((a.den : ℕ) : ℤ)
    exact_mod_cast h

theorem Q.le_total_val (a b : Q) : a ≤ b ∨ b ≤ a := by
  rcases le_total a.val b.val with h | h
  · exact Or.inl (Q.le_iff_val.mpr h)
  · exact Or.inr (Q.le_iff_val.mpr h)

theorem Q.le_trans_val {a b c : Q} (h₁ : a ≤ b) (h₂ : b ≤ c) : a ≤ c :=
  Q.le_iff_val.mpr (le_trans (Q.le_iff_val.mp h₁) (Q.le_iff_val.mp h₂))

/-! ### `pyRound` agrees with the reference rounding and is monotone -/

theorem floor_val (q : Q) : ⌊q.val⌋ = q.num / ((q.den : ℕ) : ℤ) := by
  have hd : (0 : ℤ) < ((q.den : ℕ) : ℤ) := by exact_mod_cast q.den.pos
  have hdq : (0 : ℚ) < ((q.den : ℕ) : ℚ) := by exact_mod_cast q.den.pos
  have key := Int.ediv_add_emod q.num ((q.den : ℕ) : ℤ)
  have r0 : 0 ≤ q.num % ((q.den : ℕ) : ℤ) := Int.emod_nonneg _ (by omega)
  have r1 : q.num % ((q.den : ℕ) : ℤ) < ((q.den : ℕ) : ℤ) := Int.emod_lt_of_pos _ hd
  rw [Int.floor_eq_iff]
  constructor
  · show ((q.num / ((q.den : ℕ) : ℤ) : ℤ) : ℚ) ≤ q.val
    unfold Q.val
    rw [le_div_iff₀ hdq]
    have h' : (q.num / ((q.den : ℕ) : ℤ)) * ((q.den : ℕ) : ℤ) ≤ q.num := by linarith
    exact_mod_cast h'
  · show q.val < ((q.num / ((q.den : ℕ) : ℤ) : ℤ) : ℚ) + 1
    unfold Q.val
    rw [div_lt_iff₀ hdq]
    have h' : q.num < (q.num / ((q.den : ℕ) : ℤ) + 1) * ((q.den : ℕ) : ℤ) := by nlinarith
    calc (q.num : ℚ) < ((q.num / ((q.den : ℕ) : ℤ) + 1 : ℤ) : ℚ) * (((q.den : ℕ) : ℤ) : ℚ) := by
            exact_mod_cast h'
      _ = (((q.num / ((q.den : ℕ) : ℤ) : ℤ) : ℚ) + 1) * ((q.den : ℕ) : ℚ) := by push_cast; ring

theorem fract_val (q : Q) :
    Int.fract q.val = ((q.num % ((q.den : ℕ) : ℤ) : ℤ) : ℚ) / ((q.den : ℕ) : ℚ) := by
  have hdq : (0 : ℚ) < ((q.den : ℕ) : ℚ) := by exact_mod_cast q.den.pos
  have key := Int.ediv_add_emod q.num ((q.den : ℕ) : ℤ)
  have keyq : (((q.den : ℕ) : ℤ) : ℚ) * ((q.num / ((q.den : ℕ) : ℤ) : ℤ) : ℚ) +
      ((q.num % ((q.den : ℕ) : ℤ) : ℤ) : ℚ) = (q.num : ℚ) := by exact_mod_cast key
  rw [← Int.self_sub_floor q.val, floor_val]
  unfold Q.val
  push_cast at keyq
  field_simp
  linarith [keyq]

theorem pyRound_eq (q : Q) : pyRound q = pyRoundRat q.val := by
  have hd : (0 : ℤ) < ((q.den : ℕ) : ℤ) := by exact_mod_cast q.den.pos
  have hdq : (0 : ℚ) < ((q.den : ℕ) : ℚ) := by exact_mod_cast q.den.pos
  have hr : q.num - q.num / ((q.den : ℕ) : ℤ) * ((q.den : ℕ) : ℤ) =
      q.num % ((q.den : ℕ) : ℤ) := by
    have := Int.ediv_add_emod q.num ((q.den : ℕ) : ℤ)
    linarith
  have c1 : 2 * (q.num - q.num / ((q.den : ℕ) : ℤ) * ((q.den : ℕ) : ℤ)) < ((q.den : ℕ) : ℤ) ↔
      Int.fract q.val < 1 / 2 := by
    rw [hr, fract_val q, div_lt_div_iff₀ hdq (by norm_num : (0 : ℚ) < 2)]
    constructor
    · intro h
      have h' : (q.num % ((q.den : ℕ) : ℤ)) * 2 < 1 * ((q.den : ℕ) : ℤ) := by linarith
      exact_mod_cast h'
    · intro h
      have h' : (q.num % ((q.den : ℕ) : ℤ)) * 2 < 1 * ((q.den : ℕ) : ℤ) := by exact_mod_cast h
      linarith
  have c2 : ((q.den : ℕ) : ℤ) < 2 * (q.num - q.num / ((q.den : ℕ) : ℤ) * ((q.den : ℕ) : ℤ)) ↔
      1 / 2 < Int.fract q.val := by
    rw [hr, fract_val q, div_lt_div_iff₀ (by norm_num : (0 : ℚ) < 2) hdq]
    constructor
    · intro h
      have h' : 1 * ((q.den : ℕ) : ℤ) < (q.num % ((q.den : ℕ) : ℤ)) * 2 := by linarith
      exact_mod_cast h'
    · intro h
      have h' : 1 * ((q.den : ℕ) : ℤ) < (q.num % ((q.den : ℕ) : ℤ)) * 2 := by exact_mod_cast h
      linarith
  simp only [pyRound, pyRoundRat]
  rw [floor_val]
  exact if_congr c1 rfl (if_congr c2 rfl rfl)

theorem pyRoundRat_mono {x y : ℚ} (h : x ≤ y) : pyRoundRat x ≤ pyRoundRat y := by
  have hf : ⌊x⌋ ≤ ⌊y⌋ := Int.floor_mono h
  rcases lt_or_eq_of_le hf with hlt | heq
  · have bx : pyRoundRat x ≤ ⌊x⌋ + 1 := by unfold pyRoundRat; split_ifs <;> omega
    have hy : ⌊y⌋ ≤ pyRoundRat y := by unfold pyRoundRat; split_ifs <;> omega
    omega
  · have hfr : Int.fract x ≤ Int.fract y := by
      have hx := Int.self_sub_floor x
      have hy := Int.self_sub_floor y
      have hcast : ((⌊x⌋ : ℤ) : ℚ) = ((⌊y⌋ : ℤ) : ℚ) := by exact_mod_cast heq
      linarith
    unfold pyRoundRat
    rw [← heq]
    split_ifs <;> first | omega | linarith

theorem pyRound_mono {a b : Q} (h : a ≤ b) : pyRound a ≤ pyRound b := by
  rw [pyRound_eq, pyRound_eq]
  exact pyRoundRat_mono (Q.le_iff_val.mp h)

/-! ### Stable sort lemmas -/

theorem mem_stableInsert {α : Type} {le : α → α → Bool} {a x : α} {l : List α} :
    x ∈ stableInsert le a l ↔ x = a ∨ x ∈ l := by
  induction l with
  | nil => simp [stableInsert]
  | cons b bs ih =>
    unfold stableInsert
    split
    · simp only [List.mem_cons, ih]
      tauto
    · simp only [List.mem_cons]

theorem stableInsert_perm {α : Type} (le : α → α → Bool) (a : α) (l : List α) :
    (stableInsert le a l).Perm (a :: l) := by
  induction l with
  | nil => exact List.Perm.refl _
  | cons b bs ih =>
    unfold stableInsert
    split
    · exact (ih.cons b).trans (List.Perm.swap a b bs)
    · exact List.Perm.refl _

theorem stableSort_perm_aux {α : Type} (le : α → α → Bool) (l acc : List α) :
    (l.foldl (fun acc a => stableInsert le a acc) acc).Perm (acc ++ l) := by
  induction l generalizing acc with
  | nil => simp
  | cons a as ih =>
    simp only [List.foldl_cons]
    refine (ih (stableInsert le a acc)).trans ?_
    refine ((stableInsert_perm le a acc).append_right as).trans ?_
    exact List.perm_middle.symm

theorem stableSort_perm {α : Type} (le : α → α → Bool) (l : List α) :
    (stableSort le l).Perm l := by
  simpa using stableSort_perm_aux le l []

theorem stableSort_length {α : Type} (le : α → α → Bool) (l : List α) :
    (stableSort le l).length = l.length :=
  (stableSort_perm le l).length_eq

theorem mem_stableSort {α : Type} {le : α → α → Bool} {x : α} {l : List α} :
    x ∈ stableSort le l ↔ x ∈ l :=
  (stableSort_perm le l).mem_iff

theorem stableSort_eq_nil_iff {α : Type} {le : α → α → Bool} {l : List α} :
    stableSort le l = [] ↔ l = [] := by
  constructor
  · intro h
    have hl := stableSort_length le l
    rw [h] at hl
    exact List.length_eq_zero.mp hl.symm
  · intro h
    subst h
    rfl

theorem pairwise_stableInsert {α : Type} {le : α → α → Bool}
    (htrans : ∀ a b c, le a b = true → le b c = true → le a c = true)
    (htot : ∀ a b, le a b = true ∨ le b a = true)
    (a : α) {l : List α} (hl : l.Pairwise (fun x y => le x y = true)) :
    (stableInsert le a l).Pairwise (fun x y => le x y = true) := by
  induction l with
  | nil => simp [stableInsert]
  | cons b bs ih =>
    rcases List.pairwise_cons.mp hl with ⟨hb, hbs⟩
    unfold stableInsert
    split
    · rename_i hba
      refine List.pairwise_cons.mpr ⟨?_, ih hbs⟩
      intro x hx
      rcases mem_stableInsert.mp hx with rfl | hx'
      · exact hba
      · exact hb x hx'
    · rename_i hba
      have hab : le a b = true := (htot a b).resolve_right hba
      refine List.pairwise_cons.mpr ⟨?_, hl⟩
      intro x hx
      rcases List.mem_cons.mp hx with rfl | hx'
      · exact hab
      · exact htrans a b x hab (hb x hx')

theorem pairwise_stableSort {α : Type} {le : α → α → Bool}
    (htrans : ∀ a b c, le a b = true → le b c = true → le a c = true)
    (htot : ∀ a b, le a b = true ∨ le b a = true)
    (l : List α) : (stableSort le l).Pairwise (fun x y => le x y = true) := by
  suffices haux : ∀ (l acc : List α), acc.Pairwise (fun x y => le x y = true) →
      (l.foldl (fun acc a => stableInsert le a acc) acc).Pairwise
        (fun x y => le x y = true) from haux l [] (by simp)
  intro l
  induction l with
  | nil => intro acc h; simpa using h
  | cons a as ih =>
    intro acc h
    exact ih _ (pairwise_stableInsert htrans htot a h)

/-! ### `firstMaxAux` characterisation (Python `max` keeps the first maximum) -/

theorem firstMaxAux_spec {α : Type} {β : Type} [LinearOrder β] (f : α → β)
    (l : List α) (a : α) :
    ∃ p q, a :: l = p ++ firstMaxAux f a l :: q ∧
      (∀ x ∈ p, f x < f (firstMaxAux f a l)) ∧
      (∀ x ∈ a :: l, f x ≤ f (firstMaxAux f a l)) := by
  induction l generalizing a with
  | nil =>
    refine ⟨[], [], rfl, by simp, ?_⟩
    intro x hx
    rcases List.mem_cons.mp hx with rfl | hx'
    · exact le_refl _
    · exact absurd hx' (List.not_mem_nil x)
  | cons b bs ih =>
    unfold firstMaxAux
    split
    · rename_i hab
      obtain ⟨p, q, hpq, hstrict, hmax⟩ := ih b
      refine ⟨a :: p, q, congrArg (List.cons a) hpq, ?_, ?_⟩
      · intro x hx
        rcases List.mem_cons.mp hx with rfl | hxp
        · exact lt_of_lt_of_le hab (hmax b (List.mem_cons_self b bs))
        · exact hstrict x hxp
      · intro x hx
        rcases List.mem_cons.mp hx with rfl | hx'
        · exact le_of_lt (lt_of_lt_of_le hab (hmax b (List.mem_cons_self b bs)))
        · exact hmax x hx'
    · rename_i hab
      have hba : f b ≤ f a := le_of_not_lt hab
      obtain ⟨p, q, hpq, hstrict, hmax⟩ := ih a
      cases p with
      | nil =>
        simp only [List.nil_append] at hpq
        have h1 : a = firstMaxAux f a bs := (List.cons.injEq _ _ _ _ ▸ hpq).1
        refine ⟨[], b :: bs, ?_, by simp, ?_⟩
        · simpa using congrArg (fun z => z :: b :: bs) h1
        · intro x hx
          rw [← h1]
          rcases List.mem_cons.mp hx with rfl | hx'
          · exact le_refl _
          rcases List.mem_cons.mp hx' with rfl | hx''
          · exact hba
          · have := hmax x (List.mem_cons_of_mem a hx'')
            rw [← h1] at this
            exact this
      | cons a₀ p' =>
        have h1 : a = a₀ := (List.cons.injEq _ _ _ _ ▸ hpq).1
        have h2 : bs = p' ++ firstMaxAux f a bs :: q := (List.cons.injEq _ _ _ _ ▸ hpq).2
        subst h1
        have haR : f a < f (firstMaxAux f a bs) := hstrict a (List.mem_cons_self a p')
        refine ⟨a :: b :: p', q, ?_, ?_, ?_⟩
        · show a :: b :: bs = a :: b :: (p' ++ firstMaxAux f a bs :: q)
          rw [← h2]
        · intro x hx
          rcases List.mem_cons.mp hx with rfl | hx'
          · exact haR
          rcases List.mem_cons.mp hx' with rfl | hx''
          · exact lt_of_le_of_lt hba haR
          · exact hstrict x (List.mem_cons_of_mem a hx'')
        · intro x hx
          rcases List.mem_cons.mp hx with rfl | hx'
          · exact hmax x (List.mem_cons_self x bs)
          rcases List.mem_cons.mp hx' with rfl | hx''
          · exact le_trans hba (hmax a (List.mem_cons_self a bs))
          · exact hmax x (List.mem_cons_of_mem a hx'')

/-! ### `findIdxQ` and `firstDedup` lemmas -/

theorem findIdxQ_eq_none_iff {α : Type} {p : α → Bool} {l : List α} :
    findIdxQ p l = none ↔ ∀ x ∈ l, p x = false := by
  induction l with
  | nil => simp [findIdxQ]
  | cons a as ih =>
    unfold findIdxQ
    split
    · rename_i hpa
      simp [hpa]
    · rename_i hpa
      rw [Option.map_eq_none', ih]
      constructor
      · intro hall x hx
        rcases List.mem_cons.mp hx with rfl | hx'
        · cases h : p x
          · rfl
          · exact absurd h hpa
        · exact hall x hx'
      · intro hall x hx
        exact hall x (List.mem_cons_of_mem a hx)

theorem findIdxQ_some_getElem {α : Type} {p : α → Bool} {l : List α} {i : ℕ}
    (h : findIdxQ p l = some i) : ∃ hi : i < l.length, p (l.get ⟨i, hi⟩) = true := by
  induction l generalizing i with
  | nil => simp [findIdxQ] at h
  | cons a as ih =>
    unfold findIdxQ at h
    split at h
    · rename_i hpa
      have h0 : i = 0 := (Option.some.injEq _ _ ▸ h).symm
      subst h0
      exact ⟨by simp, by simpa using hpa⟩
    · rename_i hpa
      rw [Option.map_eq_some'] at h
      obtain ⟨j, hj, rfl⟩ := h
      obtain ⟨hjl, hpj⟩ := ih hj
      exact ⟨by simpa using Nat.succ_lt_succ hjl, by simpa using hpj⟩

theorem findIdxQ_mem {α : Type} [DecidableEq α] {s : α} {l : List α} (h : s ∈ l) :
    ∃ i, findIdxQ (fun t => decide (t = s)) l = some i := by
  cases hf : findIdxQ (fun t => decide (t = s)) l with
  | some i => exact ⟨i, rfl⟩
  | none => exact absurd (findIdxQ_eq_none_iff.mp hf s h) (by simp)

theorem mem_take_of_findIdxQ {α : Type} [DecidableEq α] {s : α} {l : List α} {i n : ℕ}
    (h : findIdxQ (fun t => decide (t = s)) l = some i) (hin : i < n) : s ∈ l.take n := by
  obtain ⟨hi, hp⟩ := findIdxQ_some_getElem h
  have hs : l.get ⟨i, hi⟩ = s := of_decide_eq_true hp
  have hlen : i < (l.take n).length := by
    rw [List.length_take]
    omega
  have hg : (l.take n).get ⟨i, hlen⟩ = l.get ⟨i, hi⟩ := by
    simp [List.getElem_take]
  rw [← hs, ← hg]
  exact List.get_mem _ _ _

theorem mem_firstDedup {α : Type} [DecidableEq α] {x : α} {l : List α} :
    x ∈ firstDedup l ↔ x ∈ l := by
  induction l with
  | nil => simp [firstDedup]
  | cons a as ih =>
    unfold firstDedup
    by_cases hx : x = a
    · subst hx
      simp
    · simp [List.mem_filter, ih, hx]

theorem firstDedup_nodup {α : Type} [DecidableEq α] (l : List α) : (firstDedup l).Nodup := by
  induction l with
  | nil => simp [firstDedup]
  | cons a as ih =>
    unfold firstDedup
    refine List.nodup_cons.mpr ⟨?_, ih.filter _⟩
    intro hmem
    rcases List.mem_filter.mp hmem with ⟨_, hne⟩
    exact absurd rfl (of_decide_eq_true hne)

theorem firstDedup_eq_nil_iff {α : Type} [DecidableEq α] {l : List α} :
    firstDedup l = [] ↔ l = [] := by
  cases l <;> simp [firstDedup]

/-! ### Pipeline lemmas -/

theorem titleLine_spec {ls : List DocLine} {t : SLine} (h : titleLineOf ls = some t) :
    t ∈ firstPageHeadingsOf ls ∧ (∀ x ∈ firstPageHeadingsOf ls, x.score ≤ t.score) ∧
      ∃ p q, firstPageHeadingsOf ls = p ++ t :: q ∧ ∀ x ∈ p, x.score < t.score := by
  unfold titleLineOf at h
  cases hfp : firstPageHeadingsOf ls with
  | nil =>
    rw [hfp] at h
    exact absurd h (by simp [firstMaxBy])
  | cons a l =>
    rw [hfp] at h
    unfold firstMaxBy at h
    have ht : firstMaxAux (fun s => s.score) a l = t := by
      injection h
    obtain ⟨p, q, hpq, hstrict, hmax⟩ := firstMaxAux_spec (fun s => s.score) l a
    rw [ht] at hpq hstrict hmax
    refine ⟨?_, ?_, p, q, hpq, hstrict⟩
    · rw [hpq]
      exact List.mem_append_right p (List.mem_cons_self t q)
    · intro x hx
      exact hmax x hx

theorem mem_potentialHeadings {ls : List DocLine} {h : SLine}
    (hm : h ∈ potentialHeadingsOf ls) :
    h ∈ scoredOf ls ∧ 2 ≤ h.score ∧ h.line.text.length < 200 := by
  unfold potentialHeadingsOf at hm
  rcases List.mem_filter.mp hm with ⟨h1, h2⟩
  rw [Bool.and_eq_true, decide_eq_true_iff, decide_eq_true_iff] at h2
  exact ⟨h1, h2.1, h2.2⟩

theorem score_eq_of_mem_scored {ls : List DocLine} {h : SLine} (hm : h ∈ scoredOf ls) :
    h.score = calculateHeadingScore h.line (bodyStyleOf ls).1 (bodyStyleOf ls).2 ∧
      h.line ∈ ls := by
  unfold scoredOf at hm
  rcases List.mem_map.mp hm with ⟨l, hl, heq⟩
  constructor <;> simp [← heq, hl]

theorem headingsOf_subset {ls : List DocLine} {h : SLine} (hm : h ∈ headingsOf ls) :
    h ∈ potentialHeadingsOf ls := by
  unfold headingsOf at hm
  split at hm
  · exact List.mem_of_mem_filter hm
  · exact hm

theorem isEmpty_false_of_potential {ls : List DocLine} (h : potentialHeadingsOf ls ≠ []) :
    ls.isEmpty = false := by
  cases ls
  · exact absurd rfl h
  · rfl

theorem score_zero_of_listItem (l : DocLine) (bs : ℤ) (bf : String)
    (h : isListItemStart l.text = true) : calculateHeadingScore l bs bf = 0 := by
  simp [calculateHeadingScore, h]

theorem candidate_not_listItem {ls : List DocLine} {h : SLine}
    (hm : h ∈ potentialHeadingsOf ls) : isListItemStart h.line.text = false := by
  rcases mem_potentialHeadings hm with ⟨hs, hscore, _⟩
  rcases score_eq_of_mem_scored hs with ⟨heq, _⟩
  cases hli : isListItemStart h.line.text
  · rfl
  · rw [score_zero_of_listItem _ _ _ hli] at heq
    omega

theorem headingFontSizes_sorted (ls : List DocLine) :
    (headingFontSizesOf ls).Pairwise (fun a b : ℤ => b < a) := by
  unfold headingFontSizesOf
  have htrans : ∀ a b c : ℤ, (fun a b : ℤ => decide (b ≤ a)) a b = true →
      (fun a b : ℤ => decide (b ≤ a)) b c = true →
      (fun a b : ℤ => decide (b ≤ a)) a c = true := by
    intro a b c h1 h2
    simp only [decide_eq_true_iff] at h1 h2 ⊢
    omega
  have htot : ∀ a b : ℤ, (fun a b : ℤ => decide (b ≤ a)) a b = true ∨
      (fun a b : ℤ => decide (b ≤ a)) b a = true := by
    intro a b
    simp only [decide_eq_true_iff]
    omega
  have hsorted := pairwise_stableSort htrans htot
    (firstDedup ((headingsOf ls).map (fun h => pyRound h.line.font_size)))
  have hnodup : (stableSort (fun a b : ℤ => decide (b ≤ a))
      (firstDedup ((headingsOf ls).map (fun h => pyRound h.line.font_size)))).Nodup :=
    ((stableSort_perm _ _).nodup_iff).mpr (firstDedup_nodup _)
  have hand := hsorted.and hnodup
  exact hand.imp (fun hab =>
    lt_of_le_of_ne (of_decide_eq_true hab.1) (fun hc => hab.2 hc.symm))

theorem outline_ne_nil_of_title_none {ls : List DocLine}
    (hnone : titleLineOf ls = none) (hne : potentialHeadingsOf ls ≠ []) :
    outlineSortedOf ls ≠ [] := by
  have hhead : headingsOf ls = potentialHeadingsOf ls := by
    unfold headingsOf
    rw [hnone]
  have hhne : headingsOf ls ≠ [] := by
    rw [hhead]
    exact hne
  have hsizes : headingFontSizesOf ls ≠ [] := by
    unfold headingFontSizesOf
    rw [Ne, stableSort_eq_nil_iff, firstDedup_eq_nil_iff, List.map_eq_nil_iff]
    exact hhne
  obtain ⟨s0, rest, hcons⟩ := List.exists_cons_of_ne_nil hsizes
  have hs0mem : s0 ∈ (headingsOf ls).map (fun h => pyRound h.line.font_size) := by
    have hmem : s0 ∈ headingFontSizesOf ls := by
      rw [hcons]
      exact List.mem_cons_self _ _
    unfold headingFontSizesOf at hmem
    rw [mem_stableSort, mem_firstDedup] at hmem
    exact hmem
  rcases List.mem_map.mp hs0mem with ⟨h0, hh0, hround⟩
  have hlevel : levelOfSize (headingFontSizesOf ls) s0 = some "H1" := by
    unfold levelOfSize
    rw [hcons]
    simp [findIdxQ, levelName]
  have hunsorted : outlineUnsortedOf ls ≠ [] := by
    intro hc
    unfold outlineUnsortedOf at hc
    have hnone' := (List.filterMap_eq_nil_iff.mp hc) h0 hh0
    rw [hround, hlevel] at hnone'
    simp at hnone'
  unfold outlineSortedOf
  rw [Ne, stableSort_eq_nil_iff]
  exact hunsorted

theorem outline_entry_from_candidate {ls : List DocLine} {e : Entry}
    (he : e ∈ (processLines ls).outline) :
    ∃ h, h ∈ potentialHeadingsOf ls ∧ e.text = h.line.text := by
  unfold processLines at he
  split at he
  · exact absurd he (List.not_mem_nil e)
  split at he
  · exact absurd he (List.not_mem_nil e)
  split at he
  · exact absurd he (List.not_mem_nil e)
  rename_i hpe
  by_cases hcond : titleTextOf ls ≠ "" ∧ outlineSortedOf ls = []
  · rw [if_pos hcond] at he
    have he' := List.mem_singleton.mp he
    subst he'
    cases htl : titleLineOf ls with
    | none =>
      have hpne : potentialHeadingsOf ls ≠ [] := by
        intro hc
        rw [← List.isEmpty_iff] at hc
        exact hpe hc
      exact absurd hcond.2 (outline_ne_nil_of_title_none htl hpne)
    | some t =>
      have hmem : t ∈ firstPageHeadingsOf ls := (titleLine_spec htl).1
      have hmem' : t ∈ potentialHeadingsOf ls := List.mem_of_mem_filter hmem
      exact ⟨t, hmem', by simp [titleTextOf, htl]⟩
  · rw [if_neg hcond] at he
    rcases List.mem_map.mp he with ⟨e', he', rfl⟩
    unfold outlineSortedOf at he'
    have hu : e' ∈ outlineUnsortedOf ls := mem_stableSort.mp he'
    unfold outlineUnsortedOf at hu
    rcases List.mem_filterMap.mp hu with ⟨h, hh, hmap⟩
    rcases Option.map_eq_some'.mp hmap with ⟨lv, _, hev⟩
    refine ⟨h, headingsOf_subset hh, ?_⟩
    rw [← hev]
    rfl

theorem entryKeyLe_trans : ∀ a b c, entryKeyLe a b = true → entryKeyLe b c = true →
    entryKeyLe a c = true := by
  intro a b c h1 h2
  unfold entryKeyLe at *
  simp only [Bool.or_eq_true, Bool.and_eq_true, decide_eq_true_iff] at h1 h2 ⊢
  rcases h1 with h1 | ⟨h1e, h1y⟩ <;> rcases h2 with h2 | ⟨h2e, h2y⟩
  · left; omega
  · left; omega
  · left; omega
  · right; exact ⟨by omega, Q.le_trans_val h1y h2y⟩

theorem entryKeyLe_total : ∀ a b, entryKeyLe a b = true ∨ entryKeyLe b a = true := by
  intro a b
  unfold entryKeyLe
  simp only [Bool.or_eq_true, Bool.and_eq_true, decide_eq_true_iff]
  rcases Nat.lt_trichotomy a.page b.page with h | h | h
  · left; left; exact h
  · rcases Q.le_total_val a.y0 b.y0 with hy | hy
    · left; right; exact ⟨h, hy⟩
    · right; right; exact ⟨h.symm, hy⟩
  · right; left; exact h

/-! ## Claim theorems -/

/-- C9: the heading score never depends on the body font name: for any line
and body size, `_calculate_heading_score` returns the same value for every
`body_text_font` argument. -/
theorem score_ignores_body_font :
    ∀ (l : DocLine) (bs : ℤ) (f₁ f₂ : String),
      calculateHeadingScore l bs f₁ = calculateHeadingScore l bs f₂ := by
  intro l bs f₁ f₂
  rfl

/-- C1 counterexample: on the multi-level scenario (page 0: "Annual Report
2024" 24pt non-bold and "Chapter 1" 18pt bold; page 1: "Section 1.1" 14pt
bold; 11pt body), the pipeline does *not* return title "Annual Report 2024"
with outline `[H1 "Chapter 1", H2 "Section 1.1"]`: the bold 18pt "Chapter 1"
outscores the non-bold 24pt line (5 vs 3) and becomes the title instead. -/
theorem multilevel_scenario_counterexample :
    processPdfPages mlPages =
      some ⟨"Chapter 1", [⟨"H1", "Annual Report 2024", 0⟩, ⟨"H2", "Section 1.1", 1⟩]⟩ ∧
    processPdfPages mlPages ≠
      some ⟨"Annual Report 2024", [⟨"H1", "Chapter 1", 0⟩, ⟨"H2", "Section 1.1", 1⟩]⟩ := by
  constructor <;> decide

/-- C1 amended: on the multi-level scenario input the pipeline returns
title = "Chapter 1" (the highest-*score* page-0 candidate) and outline
`[{H1, "Annual Report 2024", 0}, {H2, "Section 1.1", 1}]`. -/
theorem multilevel_scenario_actual :
    processPdfPages mlPages =
      some ⟨"Chapter 1", [⟨"H1", "Annual Report 2024", 0⟩, ⟨"H2", "Section 1.1", 1⟩]⟩ := by
  decide

/-- C2: whenever the main path chose a non-empty title but the assembled
outline is empty, the title line was a page-0 candidate and the pipeline
returns an empty title together with the single demoted entry
`{level "H1", text <title text>, page <title line page>}`. -/
theorem title_demotion_fallback (ls : List DocLine)
    (hfs : fontStylesOf ls ≠ []) (hph : potentialHeadingsOf ls ≠ [])
    (htt : titleTextOf ls ≠ "") (hout : outlineSortedOf ls = []) :
    ∃ t, titleLineOf ls = some t ∧
      processLines ls = ⟨"", [⟨"H1", t.line.text, t.line.page⟩]⟩ := by
  cases htl : titleLineOf ls with
  | none => exact absurd hout (outline_ne_nil_of_title_none htl hph)
  | some t =>
    refine ⟨t, rfl, ?_⟩
    unfold processLines
    rw [if_neg (by rw [isEmpty_false_of_potential hph]; simp),
      if_neg (by rw [List.isEmpty_iff]; exact hfs),
      if_neg (by rw [List.isEmpty_iff]; exact hph),
      if_pos ⟨htt, hout⟩, htl]
    simp [titleTextOf, htl]

/-- Witness for C2 at the simple-report scenario input. -/
theorem title_demotion_fallback_witness :
    ∃ t, titleLineOf srLines = some t ∧
      processLines srLines = ⟨"", [⟨"H1", t.line.text, t.line.page⟩]⟩ :=
  title_demotion_fallback srLines (by decide) (by decide) (by decide) (by decide)

/-- C3 counterexample: on `dupPages`, page 0 carries two structurally
identical candidate dicts.  The source's `h != title_line` filter (dict
value equality) excludes *both*, leaving zero headings for level
assignment, whereas removing exactly the one chosen candidate would leave
one; the pipeline consequently demotes the title and returns an empty
title, instead of keeping "HEADING X" as the title over a one-entry
outline. -/
theorem title_exclusion_counterexample :
    (allLinesOfPages dupPages).map
      (fun ls => ((headingsOf ls).length,
        (titleLineOf ls).map (fun t => (removeOneEqv (potentialHeadingsOf ls) t).length)))
      = some (0, some 1) ∧
    processPdfPages dupPages = some ⟨"", [⟨"H1", "HEADING X", 0⟩]⟩ := by
  constructor <;> decide

/-- C3 amended: when a title line is chosen it is a page-0 candidate of
maximal score, the first such in candidate order, its text becomes the
title, and the candidates excluded from level assignment are exactly those
equal to it as Python dicts (field-wise by value) — so when all candidate
records are pairwise distinct, exactly the chosen one is excluded. -/
theorem title_selection_amended (ls : List DocLine) (t : SLine)
    (h : titleLineOf ls = some t) :
    t ∈ firstPageHeadingsOf ls ∧
    (∀ x ∈ firstPageHeadingsOf ls, x.score ≤ t.score) ∧
    (∃ p q, firstPageHeadingsOf ls = p ++ t :: q ∧ ∀ x ∈ p, x.score < t.score) ∧
    titleTextOf ls = t.line.text ∧
    headingsOf ls = (potentialHeadingsOf ls).filter (fun h => !(decide (SLine.eqv h t))) := by
  rcases titleLine_spec h with ⟨h1, h2, h3⟩
  refine ⟨h1, h2, h3, ?_, ?_⟩
  · simp [titleTextOf, h]
  · simp [headingsOf, h]

/-- Witness for C3's amended statement at the multi-level scenario. -/
theorem title_selection_amended_witness :
    titleTextOf mlLines = mlChapter.line.text ∧
    headingsOf mlLines = (potentialHeadingsOf mlLines).filter
      (fun h => !(decide (SLine.eqv h mlChapter))) :=
  ⟨(title_selection_amended mlLines mlChapter (by decide)).2.2.2.1,
   (title_selection_amended mlLines mlChapter (by decide)).2.2.2.2⟩

/-- C4: a line whose text starts with digits, a period and a whitespace
character scores exactly 0 whatever the font weight or size; consequently
no such line is ever a heading candidate (threshold 2) and no outline entry
of any document carries such a text. -/
theorem list_item_suppression :
    (∀ (l : DocLine) (bs : ℤ) (bf : String), isListItemStart l.text = true →
      calculateHeadingScore l bs bf = 0) ∧
    (∀ (ls : List DocLine) (h : SLine), h ∈ potentialHeadingsOf ls →
      isListItemStart h.line.text = false) ∧
    (∀ (ls : List DocLine) (e : Entry), e ∈ (processLines ls).outline →
      isListItemStart e.text = false) := by
  refine ⟨score_zero_of_listItem, fun ls h hm => candidate_not_listItem hm, ?_⟩
  intro ls e he
  rcases outline_entry_from_candidate he with ⟨h, hh, hte⟩
  rw [hte]
  exact candidate_not_listItem hh

/-- Witness for C4: "1. Introduction" in a bold font larger than 1.4 times
the body size scores 0, and a concrete outline entry text is not a list
item. -/
theorem list_item_suppression_witness :
    calculateHeadingScore liLine 11 "Helvetica" = 0 ∧
    isListItemStart (Entry.text ⟨"H1", "Annual Report 2024", 0⟩) = false :=
  ⟨list_item_suppression.1 liLine 11 "Helvetica" (by decide),
   list_item_suppression.2.2 mlLines ⟨"H1", "Annual Report 2024", 0⟩ (by decide)⟩

theorem hNum_levelName {i : ℕ} (h : i < 6) : hNum (levelName i) = i + 1 := by
  interval_cases i <;> rfl

/-- C5: levels are monotone in font size — if two headings both receive
levels and one's font size is strictly greater, its level number is less
than or equal to the other's; and a heading whose rounded size lies beyond
the sixth largest distinct rounded size receives no level at all (so the
`filterMap` building the outline drops it). -/
theorem level_monotonicity :
    (∀ (ls : List DocLine) (h₁ h₂ : SLine) (l₁ l₂ : String),
      h₁ ∈ headingsOf ls → h₂ ∈ headingsOf ls →
      levelOfSize (headingFontSizesOf ls) (pyRound h₁.line.font_size) = some l₁ →
      levelOfSize (headingFontSizesOf ls) (pyRound h₂.line.font_size) = some l₂ →
      h₂.line.font_size < h₁.line.font_size → hNum l₁ ≤ hNum l₂) ∧
    (∀ (ls : List DocLine) (h : SLine), h ∈ headingsOf ls →
      pyRound h.line.font_size ∉ (headingFontSizesOf ls).take 6 →
      levelOfSize (headingFontSizesOf ls) (pyRound h.line.font_size) = none) := by
  constructor
  · intro ls h₁ h₂ l₁ l₂ hm₁ hm₂ hl₁ hl₂ hlt
    unfold levelOfSize at hl₁ hl₂
    cases hf₁ : findIdxQ (fun t => decide (t = pyRound h₁.line.font_size))
        (headingFontSizesOf ls) with
    | none => simp only [hf₁] at hl₁; exact absurd hl₁ (by simp)
    | some i₁ =>
      simp only [hf₁] at hl₁
      cases hf₂ : findIdxQ (fun t => decide (t = pyRound h₂.line.font_size))
          (headingFontSizesOf ls) with
      | none => simp only [hf₂] at hl₂; exact absurd hl₂ (by simp)
      | some i₂ =>
        simp only [hf₂] at hl₂
        by_cases hi₁ : i₁ < 6
        · by_cases hi₂ : i₂ < 6
          · rw [if_pos hi₁] at hl₁
            rw [if_pos hi₂] at hl₂
            have he₁ : l₁ = levelName i₁ := by injection hl₁ with h'; exact h'.symm
            have he₂ : l₂ = levelName i₂ := by injection hl₂ with h'; exact h'.symm
            obtain ⟨hlen₁, hp₁⟩ := findIdxQ_some_getElem hf₁
            obtain ⟨hlen₂, hp₂⟩ := findIdxQ_some_getElem hf₂
            have hs₁ : (headingFontSizesOf ls).get ⟨i₁, hlen₁⟩ = pyRound h₁.line.font_size :=
              of_decide_eq_true hp₁
            have hs₂ : (headingFontSizesOf ls).get ⟨i₂, hlen₂⟩ = pyRound h₂.line.font_size :=
              of_decide_eq_true hp₂
            have hround : pyRound h₂.line.font_size ≤ pyRound h₁.line.font_size :=
              pyRound_mono (Q.le_iff_val.mpr (le_of_lt (Q.lt_iff_val.mp hlt)))
            have hij : i₁ ≤ i₂ := by
              by_contra hcon
              push_neg at hcon
              have hpair := headingFontSizes_sorted ls
              rw [List.pairwise_iff_getElem] at hpair
              have hgt := hpair i₂ i₁ hlen₂ hlen₁ hcon
              rw [List.get_eq_getElem] at hs₁ hs₂
              rw [hs₁, hs₂] at hgt
              omega
            rw [he₁, he₂, hNum_levelName hi₁, hNum_levelName hi₂]
            omega
          · rw [if_neg hi₂] at hl₂
            exact absurd hl₂ (by simp)
        · rw [if_neg hi₁] at hl₁
          exact absurd hl₁ (by simp)
  · intro ls h hm htake
    have hmem : pyRound h.line.font_size ∈ headingFontSizesOf ls := by
      unfold headingFontSizesOf
      rw [mem_stableSort, mem_firstDedup]
      exact List.mem_map.mpr ⟨h, hm, rfl⟩
    obtain ⟨i, hf⟩ := findIdxQ_mem hmem
    have hge : ¬ i < 6 := fun hc => htake (mem_take_of_findIdxQ hf hc)
    unfold levelOfSize
    simp only [hf]
    rw [if_neg hge]

/-- Witness for C5: on the multi-level scenario the 24pt heading gets H1
and the 14pt heading gets H2 (1 ≤ 2); on a document whose non-title
headings span seven distinct rounded sizes, the smallest (24) receives no
level. -/
theorem level_monotonicity_witness :
    hNum "H1" ≤ hNum "H2" ∧
    levelOfSize (headingFontSizesOf sevenLines) (pyRound seven24.line.font_size) = none :=
  ⟨level_monotonicity.1 mlLines mlAnnual mlSection "H1" "H2"
      (by decide) (by decide) (by decide) (by decide) (by decide),
   level_monotonicity.2 sevenLines seven24 (by decide) (by decide)⟩

/-- C6: the pre-strip outline (the list the source sorts at step 6) is
non-decreasing in the Python key `(page, y0)`, and the returned outline is
either exactly its order-preserving image under the `y0` strip or has at
most one entry (the early fallbacks and the demoted single entry), which is
trivially ordered. -/
theorem outline_ordering_invariant (ls : List DocLine) :
    (outlineSortedOf ls).Pairwise
      (fun a b : EntryY => a.page < b.page ∨ (a.page = b.page ∧ a.y0 ≤ b.y0)) ∧
    ((processLines ls).outline = (outlineSortedOf ls).map stripY ∨
      (processLines ls).outline.length ≤ 1) := by
  constructor
  · have hp := pairwise_stableSort entryKeyLe_trans entryKeyLe_total (outlineUnsortedOf ls)
    refine hp.imp ?_
    intro a b hab
    unfold entryKeyLe at hab
    simpa [Bool.or_eq_true, Bool.and_eq_true, decide_eq_true_iff] using hab
  · unfold processLines
    split
    · right; simp
    split
    · right; simp
    split
    · right; simp
    by_cases hcond : titleTextOf ls ≠ "" ∧ outlineSortedOf ls = []
    · rw [if_pos hcond]
      right
      simp
    · rw [if_neg hcond]
      left
      rfl

/-- C7: when some lines survive margin filtering but none has an alphabetic
character, the pipeline returns the first surviving line's text as the
title with an empty outline, without error; when no lines survive at all it
returns an empty title and outline. -/
theorem degenerate_input_fallbacks :
    (∀ (pages : List PdfPage) (l₀ : DocLine) (rest : List DocLine),
      allLinesOfPages pages = some (l₀ :: rest) →
      (∀ l ∈ (l₀ :: rest), hasAlpha l.text = false) →
      processPdfPages pages = some ⟨l₀.text, []⟩) ∧
    (∀ pages : List PdfPage, allLinesOfPages pages = some [] →
      processPdfPages pages = some ⟨"", []⟩) := by
  constructor
  · intro pages l₀ rest hall hna
    unfold processPdfPages
    rw [hall]
    have hfs : fontStylesOf (l₀ :: rest) = [] := by
      unfold fontStylesOf
      rw [List.map_eq_nil_iff, List.filter_eq_nil_iff]
      intro a ha
      rw [hna a ha]
      simp
    show some (processLines (l₀ :: rest)) = some ⟨l₀.text, []⟩
    unfold processLines
    rw [if_neg (by simp), if_pos (by rw [List.isEmpty_iff]; exact hfs)]
    rfl
  · intro pages hall
    unfold processPdfPages
    rw [hall]
    rfl

/-- Witness for C7: a digits-only page yields its first line as the title;
a page whose only line is inside the top margin yields the empty result. -/
theorem degenerate_input_fallbacks_witness :
    processPdfPages digitPages = some ⟨digitLine.text, []⟩ ∧
    processPdfPages headerOnlyPages = some ⟨"", []⟩ :=
  ⟨degenerate_input_fallbacks.1 digitPages digitLine [] (by decide) (by decide),
   degenerate_input_fallbacks.2 headerOnlyPages (by decide)⟩

/-- C10: when the demotion fallback fires (candidates exist, the chosen
title text is non-empty, the sorted outline is empty), the title
necessarily came from a page-0 candidate (`title_line` is not `None`);
indeed whenever page 0 has no candidate and candidates exist at all, the
sorted outline is provably nonempty, so the `page`-defaults-to-0 branch of
the demoted entry is unreachable. -/
theorem demotion_title_from_candidate (ls : List DocLine) :
    (titleLineOf ls = none → potentialHeadingsOf ls ≠ [] → outlineSortedOf ls ≠ []) ∧
    (potentialHeadingsOf ls ≠ [] → titleTextOf ls ≠ "" → outlineSortedOf ls = [] →
      (titleLineOf ls).isSome = true) := by
  constructor
  · exact fun h1 h2 => outline_ne_nil_of_title_none h1 h2
  · intro hph htt hout
    cases htl : titleLineOf ls with
    | none => exact absurd hout (outline_ne_nil_of_title_none htl hph)
    | some t => rfl

/-- Witness for C10: a document with a page-1 candidate only has a nonempty
outline, and on the simple-report scenario the demoted title came from a
page-0 candidate. -/
theorem demotion_title_from_candidate_witness :
    outlineSortedOf p2Lines ≠ [] ∧ (titleLineOf srLines).isSome = true :=
  ⟨(demotion_title_from_candidate p2Lines).1 (by decide) (by decide),
   (demotion_title_from_candidate srLines).2 (by decide) (by decide) (by decide)⟩

theorem mergeStep_cont (acc₁ : List (List Span)) (cur : List Span) (lastSpan : Span)
    (sl : SubLine) (curSpan : Span) (rest : List Span)
    (hlast : cur.getLast? = some lastSpan) (hspans : sl.spans = curSpan :: rest)
    (hy : Q.abs (curSpan.bbox.y0 - lastSpan.bbox.y0) ≤ yTolerance)
    (hx : curSpan.bbox.x0 - lastSpan.bbox.x1 < xGapTolerance) :
    mergeStep (acc₁, cur) sl = some (acc₁, cur ++ sl.spans) := by
  simp only [mergeStep, hlast, hspans, List.head?_cons]
  rw [if_pos hy, if_pos hx]

/-- C8: two spans "Intro" (right edge 100) and "duction" (left edge 105)
whose tops differ by at most the 2.0 vertical tolerance are merged into a
single reconstructed line with text "Introduction" (the 5-unit gap is under
the 20.0 gap tolerance). -/
theorem fragmented_line_merge (t₁ t₂ : Q) (h : Q.abs (t₂ - t₁) ≤ yTolerance) :
    (mergeTextBlocks (fragBlocks t₁ t₂)).map (fun ls => ls.map (fun r => r.text)) =
      some ["Introduction"] := by
  have h2 : mergeStep ([], [⟨"Intro", 12, "Times-Roman", ⟨50, t₁, 100, 110⟩⟩])
      ⟨(1, 0), [⟨"duction", 12, "Times-Roman", ⟨105, t₂, 160, 110⟩⟩]⟩ =
      some ([], [⟨"Intro", 12, "Times-Roman", ⟨50, t₁, 100, 110⟩⟩,
                 ⟨"duction", 12, "Times-Roman", ⟨105, t₂, 160, 110⟩⟩]) := by
    exact mergeStep_cont [] [⟨"Intro", 12, "Times-Roman", ⟨50, t₁, 100, 110⟩⟩]
      ⟨"Intro", 12, "Times-Roman", ⟨50, t₁, 100, 110⟩⟩
      ⟨(1, 0), [⟨"duction", 12, "Times-Roman", ⟨105, t₂, 160, 110⟩⟩]⟩
      ⟨"duction", 12, "Times-Roman", ⟨105, t₂, 160, 110⟩⟩ [] rfl rfl h
      (by show (105 : Q) - 100 < xGapTolerance; decide)
  have h3 : mergeGroups (fragBlocks t₁ t₂) =
      some [[⟨"Intro", 12, "Times-Roman", ⟨50, t₁, 100, 110⟩⟩,
             ⟨"duction", 12, "Times-Roman", ⟨105, t₂, 160, 110⟩⟩]] := by
    unfold mergeGroups
    rw [show validSubLines (fragBlocks t₁ t₂) =
      [⟨(1, 0), [⟨"Intro", 12, "Times-Roman", ⟨50, t₁, 100, 110⟩⟩]⟩,
       ⟨(1, 0), [⟨"duction", 12, "Times-Roman", ⟨105, t₂, 160, 110⟩⟩]⟩] from rfl]
    rw [show (List.foldlM mergeStep ([], [])
        [(⟨(1, 0), [⟨"Intro", 12, "Times-Roman", ⟨50, t₁, 100, 110⟩⟩]⟩ : SubLine),
         ⟨(1, 0), [⟨"duction", 12, "Times-Roman", ⟨105, t₂, 160, 110⟩⟩]⟩]) =
      (mergeStep ([], []) ⟨(1, 0), [⟨"Intro", 12, "Times-Roman", ⟨50, t₁, 100, 110⟩⟩]⟩).bind
        (fun a => (mergeStep a ⟨(1, 0), [⟨"duction", 12, "Times-Roman", ⟨105, t₂, 160, 110⟩⟩]⟩).bind
          (fun b => pure b)) from rfl]
    rw [show mergeStep ([], []) ⟨(1, 0), [⟨"Intro", 12, "Times-Roman", ⟨50, t₁, 100, 110⟩⟩]⟩ =
      some ([], [⟨"Intro", 12, "Times-Roman", ⟨50, t₁, 100, 110⟩⟩]) from rfl]
    rw [Option.some_bind, h2, Option.some_bind]
    rfl
  unfold mergeTextBlocks
  rw [if_neg (by simp [fragBlocks]), h3]
  rfl

/-- Witness for C8 at concrete top coordinates 100 and 101. -/
theorem fragmented_line_merge_witness :
    (mergeTextBlocks (fragBlocks 100 101)).map (fun ls => ls.map (fun r => r.text)) =
      some ["Introduction"] :=
  fragmented_line_merge 100 101 (by decide)
